import Mathlib

/-
  Verification of the DICOM monitoring core of the `vaguslab-suite`
  repository (`dicom-service/dicom_monitor.py`).

  The Python source is shallowly embedded: every function below mirrors the
  control flow of the correspondingly named Python function.  Strings are
  Lean `String`s (lists of characters); Python regular expressions over the
  few fixed patterns of the source are encoded as explicit character-list
  scans.  The regex character class `\d` is modelled as the ASCII digits and
  `$` as end-of-string, and `str.upper`/`str.strip` are modelled by the
  ASCII `String.toUpper`/`String.trim`; the strings these functions are
  applied to are whitespace-split log tokens and DICOM header fields, for
  which these agree with Python's Unicode-aware behaviour.
-/

namespace VagusLab

/-! ## Small string helpers -/

/-- The set of clinically useful modality codes (`_CLINICAL_MODALITIES`). -/
def clinicalModalities : List String :=
  ["CT", "MR", "US", "DX", "CR", "MG", "PT", "NM", "XA"]

/-- Model of `re.sub(r"[\x00-\x1f]", "", s)`: remove the control characters
U+0000 .. U+001F from a string (used by `_write_state`). -/
def stripCtrl (s : String) : String :=
  ⟨s.data.filter (fun c => decide (0x1f < c.toNat))⟩

/-- The function `_extract_last_name`: the portion of a DICOM person name before the
first `^` separator (`full_name.split("^")[0]`, `""` for empty input). -/
def extractLastName (s : String) : String :=
  ⟨s.data.takeWhile (fun c => decide (c ≠ '^'))⟩

/-- Python's substring test `needle in hay` on character lists. -/
def containsSub (needle hay : List Char) : Bool :=
  (List.range (hay.length + 1)).any
    (fun i => decide ((hay.drop i).take needle.length = needle))

/-- Python's `str.upper()` (ASCII, per the file-header remark). -/
def toUpperStr (s : String) : String :=
  ⟨s.data.map Char.toUpper⟩

/-! ## Accession normalisation (`_extract_core_acc`)

The Python source matches `re.match(r"^(.+-(?:CT|MR|US|DX|CR|MG|PT|NM|XA))", acc)`
— a greedy `.+` makes the captured group run up to and including the *last*
occurrence of `-<modality>` — and otherwise falls back to
`re.sub(r"_\d+$", "", acc)`, removal of a trailing underscore-digits suffix. -/

/-- Predicate `modAt l j`: holds when the three characters of `l` starting at
position `j` are `-M` for a clinical modality code `M` and at least one
character precedes them (the regex requires a non-empty `.+` before the
dash). -/
def modAt (l : List Char) (j : Nat) : Bool :=
  decide (1 ≤ j) &&
    clinicalModalities.any (fun m => decide ((l.drop j).take 3 = '-' :: m.data))

/-- Largest `j < n` satisfying `p` (the greedy backtracking search of the
regex engine, which tries the longest `.+` first). -/
def findLast (p : Nat → Bool) : Nat → Option Nat
  | 0 => none
  | n + 1 => if p n then some n else findLast p n

/-- Start position of the `-<modality>` occurrence captured by the greedy
match, if the pattern matches at all. -/
def lastModPos (l : List Char) : Option Nat :=
  findLast (modAt l) l.length

/-- Helper for the `_\d+$` suffix: on the *reversed* string, after at least
one digit has been consumed, keep consuming digits until the `_`. -/
def stripRevCont : List Char → Option (List Char)
  | [] => none
  | c :: rest =>
      if c = '_' then some rest
      else if c.isDigit then stripRevCont rest
      else none

/-- On the *reversed* string: match one-or-more digits followed by `_`,
returning the (reversed) remainder — the reversal of `re.sub(r"_\d+$", …)`'s
match. -/
def stripRev : List Char → Option (List Char)
  | [] => none
  | c :: rest => if c.isDigit then stripRevCont rest else none

/-- Model of `re.sub(r"_\d+$", "", ·)`: drop a trailing `_<digits>` suffix when
present, otherwise return the list unchanged. -/
def stripSplitSuffix (l : List Char) : List Char :=
  match stripRev l.reverse with
  | some r => r.reverse
  | none => l

/-- Whether a string still carries a trailing `_<digits>` split suffix. -/
def hasSplitSuffix (s : String) : Bool :=
  (stripRev s.data.reverse).isSome

/-- The two fallback branches of `_extract_core_acc` on character lists. -/
def coreAccL (l : List Char) : List Char :=
  match lastModPos l with
  | some j => l.take (j + 3)
  | none => stripSplitSuffix l

/-- The function `_extract_core_acc`: normalise an accession by keeping everything up to
and including the (last) clinical modality code, else stripping a trailing
`_<digits>` split suffix; empty and `"N/A"` placeholders map to `""`. -/
def extractCoreAcc (acc : String) : String :=
  if acc = "" ∨ acc = "N/A" then ""
  else ⟨coreAccL acc.data⟩

/-! ### Lemmas about the greedy position search -/

theorem findLast_eq_none {p : Nat → Bool} {n : Nat} :
    findLast p n = none ↔ ∀ j, j < n → p j = false := by
  induction n with
  | zero => simp [findLast]
  | succ n ih =>
    constructor
    · intro h j hj
      unfold findLast at h
      split at h
      · exact absurd h (by simp)
      · rcases Nat.lt_succ_iff_lt_or_eq.mp hj with h' | rfl
        · exact ih.mp h j h'
        · rename_i hpn
          simpa using hpn
    · intro h
      unfold findLast
      rw [if_neg (by simp [h n (Nat.lt_succ_self n)])]
      exact ih.mpr (fun j hj => h j (Nat.lt_succ_of_lt hj))

theorem findLast_eq_some {p : Nat → Bool} {n j : Nat} (h : findLast p n = some j) :
    p j = true ∧ j < n ∧ ∀ k, j < k → k < n → p k = false := by
  induction n with
  | zero => simp [findLast] at h
  | succ n ih =>
    unfold findLast at h
    split at h
    · rename_i hpn
      injection h with h
      subst h
      exact ⟨hpn, Nat.lt_succ_self _, fun k hk1 hk2 => absurd hk2 (by omega)⟩
    · rename_i hpn
      obtain ⟨h1, h2, h3⟩ := ih h
      refine ⟨h1, Nat.lt_succ_of_lt h2, fun k hk1 hk2 => ?_⟩
      rcases Nat.lt_succ_iff_lt_or_eq.mp hk2 with h' | rfl
      · exact h3 k hk1 h'
      · simpa using hpn

theorem findLast_intro {p : Nat → Bool} {n j : Nat} (hp : p j = true) (hj : j < n)
    (hmax : ∀ k, j < k → k < n → p k = false) : findLast p n = some j := by
  induction n with
  | zero => omega
  | succ n ih =>
    unfold findLast
    rcases Nat.lt_succ_iff_lt_or_eq.mp hj with h' | rfl
    · rw [if_neg (by simp [hmax n h' (Nat.lt_succ_self n)])]
      exact ih h' (fun k hk1 hk2 => hmax k hk1 (Nat.lt_succ_of_lt hk2))
    · simp [hp]

/-! ### Lemmas about the modality pattern -/

theorem clinicalModalities_len : ∀ m ∈ clinicalModalities, m.data.length = 2 := by
  decide

theorem modAt_bounds {l : List Char} {j : Nat} (h : modAt l j = true) :
    1 ≤ j ∧ j + 3 ≤ l.length := by
  unfold modAt at h
  simp only [Bool.and_eq_true, decide_eq_true_eq, List.any_eq_true] at h
  obtain ⟨h1, m, hm, h2⟩ := h
  have hlen := congrArg List.length h2
  have hm2 := clinicalModalities_len m hm
  simp [List.length_take, List.length_drop, hm2] at hlen
  omega

theorem modAt_take {l : List Char} {k j : Nat} (h : modAt (l.take k) j = true) :
    modAt l j = true := by
  have hb := modAt_bounds h
  rw [List.length_take] at hb
  unfold modAt at h ⊢
  simp only [Bool.and_eq_true, decide_eq_true_eq, List.any_eq_true] at h ⊢
  obtain ⟨h1, m, hm, h2⟩ := h
  refine ⟨h1, m, hm, ?_⟩
  rw [List.drop_take, List.take_take] at h2
  have hmin : min 3 (k - j) = 3 := by omega
  rwa [hmin] at h2

/-! ### Lemmas about the split-suffix strip -/

theorem stripRevCont_decomp : ∀ (l r : List Char), stripRevCont l = some r →
    ∃ d, l = d ++ '_' :: r ∧ ∀ c ∈ d, c.isDigit = true := by
  intro l
  induction l with
  | nil => intro r h; simp [stripRevCont] at h
  | cons c rest ih =>
    intro r h
    unfold stripRevCont at h
    split at h
    · rename_i hc
      injection h with h
      subst h
      exact ⟨[], by simp [hc], by simp⟩
    · split at h
      · rename_i hc hdig
        obtain ⟨d, hd1, hd2⟩ := ih r h
        refine ⟨c :: d, by simp [hd1], ?_⟩
        intro x hx
        rcases List.mem_cons.mp hx with rfl | hx
        · exact hdig
        · exact hd2 x hx
      · simp at h

theorem stripRevCont_cons (c : Char) (rest : List Char) :
    stripRevCont (c :: rest) =
      if c = '_' then some rest else if c.isDigit then stripRevCont rest else none := rfl

theorem stripRev_cons (c : Char) (rest : List Char) :
    stripRev (c :: rest) = if c.isDigit then stripRevCont rest else none := rfl

theorem stripRevCont_of_digits : ∀ (d r : List Char), (∀ c ∈ d, c.isDigit = true) →
    stripRevCont (d ++ '_' :: r) = some r := by
  intro d
  induction d with
  | nil => intro r _; simp [stripRevCont]
  | cons c d ih =>
    intro r hd
    have hc : c.isDigit = true := hd c (by simp)
    have hne : ¬ c = '_' := by
      intro h
      subst h
      exact absurd hc (by decide)
    show stripRevCont (c :: (d ++ '_' :: r)) = some r
    rw [stripRevCont_cons, if_neg hne, if_pos hc]
    exact ih r (fun x hx => hd x (by simp [hx]))

theorem stripRev_decomp {l r : List Char} (h : stripRev l = some r) :
    ∃ d, l = d ++ '_' :: r ∧ d ≠ [] ∧ ∀ c ∈ d, c.isDigit = true := by
  cases l with
  | nil => simp [stripRev] at h
  | cons c rest =>
    rw [stripRev_cons] at h
    by_cases hc : c.isDigit = true
    · rw [if_pos hc] at h
      obtain ⟨d, hd1, hd2⟩ := stripRevCont_decomp rest r h
      refine ⟨c :: d, by simp [hd1], by simp, ?_⟩
      intro x hx
      rcases List.mem_cons.mp hx with rfl | hx
      · exact hc
      · exact hd2 x hx
    · rw [if_neg hc] at h
      exact absurd h (by simp)

theorem stripRev_of_digits {d r : List Char} (hne : d ≠ []) (hd : ∀ c ∈ d, c.isDigit = true) :
    stripRev (d ++ '_' :: r) = some r := by
  cases d with
  | nil => exact absurd rfl hne
  | cons c rest =>
    show stripRev (c :: (rest ++ '_' :: r)) = some r
    rw [stripRev_cons, if_pos (hd c (by simp))]
    exact stripRevCont_of_digits rest r (fun x hx => hd x (by simp [hx]))

theorem stripSplitSuffix_take (l : List Char) :
    ∃ k, stripSplitSuffix l = l.take k := by
  unfold stripSplitSuffix
  split
  · rename_i r hr
    obtain ⟨d, hd1, _, _⟩ := stripRev_decomp hr
    refine ⟨r.reverse.length, ?_⟩
    have hl : l = r.reverse ++ '_' :: d.reverse := by
      conv_lhs => rw [← l.reverse_reverse, hd1]
      simp [List.reverse_append]
    rw [hl, List.take_left]
  · exact ⟨l.length, (List.take_length l).symm⟩

theorem lastModPos_stripSplitSuffix {l : List Char} (h : lastModPos l = none) :
    lastModPos (stripSplitSuffix l) = none := by
  obtain ⟨k, hk⟩ := stripSplitSuffix_take l
  rw [hk]
  rw [lastModPos, findLast_eq_none] at h ⊢
  intro j hj
  cases hmt : modAt (l.take k) j
  · rfl
  · have h2 := modAt_take hmt
    have hb := modAt_bounds h2
    have hf := h j (by omega)
    rw [hf] at h2
    exact absurd h2 (by simp)

theorem lastModPos_take_self {l : List Char} {j : Nat} (h : lastModPos l = some j) :
    lastModPos (l.take (j + 3)) = some j ∧ (l.take (j + 3)).length = j + 3 := by
  obtain ⟨hp, hj, hmax⟩ := findLast_eq_some h
  have hb := modAt_bounds hp
  have hlen : (l.take (j + 3)).length = j + 3 := by
    rw [List.length_take]; omega
  refine ⟨?_, hlen⟩
  rw [lastModPos, hlen]
  apply findLast_intro
  · unfold modAt at hp ⊢
    simp only [Bool.and_eq_true, decide_eq_true_eq, List.any_eq_true] at hp ⊢
    obtain ⟨h1, m, hm, h2⟩ := hp
    refine ⟨h1, m, hm, ?_⟩
    rw [List.drop_take, List.take_take]
    have hmin : min 3 (j + 3 - j) = 3 := by omega
    rwa [hmin]
  · omega
  · intro k hk1 hk2
    cases hmt : modAt (l.take (j + 3)) k
    · rfl
    · have hb2 := modAt_bounds hmt
      rw [hlen] at hb2
      omega

theorem modAt_all_false_iff (l : List Char) (b : Nat) :
    (∀ k, b < k → modAt l k = false) ↔ (∀ k < l.length, b < k → modAt l k = false) := by
  constructor
  · exact fun h k _ hb => h k hb
  · intro h k hb
    by_cases hk : k < l.length
    · exact h k hk hb
    · cases hmt : modAt l k
      · rfl
      · have := modAt_bounds hmt
        omega

theorem modAt_all_false_iff' (l : List Char) :
    (∀ k, modAt l k = false) ↔ (∀ k < l.length, modAt l k = false) := by
  constructor
  · exact fun h k _ => h k
  · intro h k
    by_cases hk : k < l.length
    · exact h k hk
    · cases hmt : modAt l k
      · rfl
      · have := modAt_bounds hmt
        omega

theorem no_split_decomp_of_stripRev_none {s : String}
    (h : stripRev s.data.reverse = none) :
    ∀ b d : String, d ≠ "" → (∀ c ∈ d.data, c.isDigit = true) → s ≠ b ++ "_" ++ d := by
  intro b d hd hdig hc
  have hdata : s.data = b.data ++ '_' :: d.data := by
    rw [hc]
    simp [String.data_append]
  have hdne : d.data ≠ [] := fun hn => hd (String.ext hn)
  have hrev : s.data.reverse = d.data.reverse ++ '_' :: b.data.reverse := by
    rw [hdata]
    simp [List.reverse_append]
  rw [hrev, stripRev_of_digits (by simpa using hdne) (fun c hcm => hdig c (List.mem_reverse.mp hcm))] at h
  exact absurd h (by simp)

theorem stripSplitSuffix_eq_self {l : List Char} (h : stripRev l.reverse = none) :
    stripSplitSuffix l = l := by
  unfold stripSplitSuffix
  rw [h]

/-- The non-placeholder branch of `_extract_core_acc`. -/
theorem extractCoreAcc_eq_of_ne {s : String} (h1 : s ≠ "") (h2 : s ≠ "N/A") :
    extractCoreAcc s = ⟨coreAccL s.data⟩ := by
  rw [extractCoreAcc, if_neg (not_or.mpr ⟨h1, h2⟩)]

/-! ### Claim C5 — totality and (amended) idempotence of normalisation -/

/-- C5 (amended): `_extract_core_acc` is total — it returns `""` for empty or
`"N/A"` placeholder input — and it is idempotent on every input whose
normalised form does not itself end in a further `_<digits>` split suffix and
is not the placeholder `"N/A"`.  (The unamended universal idempotence is
refuted by `spec_C5_counterexample`.) -/
theorem spec_C5_normalize_total_idempotent :
    (extractCoreAcc "" = "" ∧ extractCoreAcc "N/A" = "") ∧
    ∀ x : String, hasSplitSuffix (extractCoreAcc x) = false →
      extractCoreAcc x ≠ "N/A" →
      extractCoreAcc (extractCoreAcc x) = extractCoreAcc x := by
  refine ⟨⟨by decide, by decide⟩, ?_⟩
  intro x h1 h2
  by_cases hx : x = "" ∨ x = "N/A"
  · have hx0 : extractCoreAcc x = "" := by rw [extractCoreAcc, if_pos hx]
    rw [hx0]
    decide
  · push_neg at hx
    have hx0 : extractCoreAcc x = ⟨coreAccL x.data⟩ := extractCoreAcc_eq_of_ne hx.1 hx.2
    rw [hx0] at h1 h2 ⊢
    cases hm : lastModPos x.data with
    | some j =>
      have hcore : coreAccL x.data = x.data.take (j + 3) := by
        rw [coreAccL, hm]
      rw [hcore]
      obtain ⟨hstab, hlen⟩ := lastModPos_take_self hm
      have hb := modAt_bounds (findLast_eq_some hm).1
      have hne1 : (⟨x.data.take (j + 3)⟩ : String) ≠ "" := by
        intro hc
        have hd := congrArg String.data hc
        have := congrArg List.length hd
        rw [hlen] at this
        simp at this
      have hne2 : (⟨x.data.take (j + 3)⟩ : String) ≠ "N/A" := by
        intro hc
        have hd := congrArg String.data hc
        have := congrArg List.length hd
        rw [hlen] at this
        simp at this
        omega
      rw [extractCoreAcc_eq_of_ne hne1 hne2]
      show (⟨coreAccL (x.data.take (j + 3))⟩ : String) = ⟨x.data.take (j + 3)⟩
      rw [coreAccL, hstab]
      show (⟨(x.data.take (j + 3)).take (j + 3)⟩ : String) = ⟨x.data.take (j + 3)⟩
      congr 1
      rw [List.take_take]
      simp
    | none =>
      have hcore : coreAccL x.data = stripSplitSuffix x.data := by
        rw [coreAccL, hm]
      rw [hcore] at h1 h2 ⊢
      by_cases hrz : stripSplitSuffix x.data = []
      · rw [hrz]
        have h0 : (⟨[]⟩ : String) = "" := rfl
        rw [h0]
        decide
      · have hne1 : (⟨stripSplitSuffix x.data⟩ : String) ≠ "" := by
          intro hc
          exact hrz (congrArg String.data hc)
        rw [extractCoreAcc_eq_of_ne hne1 h2]
        show (⟨coreAccL (stripSplitSuffix x.data)⟩ : String) = ⟨stripSplitSuffix x.data⟩
        have hmod : lastModPos (stripSplitSuffix x.data) = none :=
          lastModPos_stripSplitSuffix hm
        have hstr : stripRev (stripSplitSuffix x.data).reverse = none := by
          unfold hasSplitSuffix at h1
          cases hsr : stripRev (stripSplitSuffix x.data).reverse
          · rfl
          · rw [hsr] at h1
            exact absurd h1 (by simp)
        rw [coreAccL, hmod]
        show (⟨stripSplitSuffix (stripSplitSuffix x.data)⟩ : String) =
          ⟨stripSplitSuffix x.data⟩
        rw [stripSplitSuffix_eq_self hstr]

/-- Witness for C5: a concrete input on which the amended idempotence applies. -/
theorem spec_C5_normalize_total_idempotent_witness :
    hasSplitSuffix (extractCoreAcc "RAD-12345-CT_2") = false ∧
    extractCoreAcc "RAD-12345-CT_2" ≠ "N/A" ∧
    extractCoreAcc (extractCoreAcc "RAD-12345-CT_2") = extractCoreAcc "RAD-12345-CT_2" :=
  ⟨by decide, by decide,
    spec_C5_normalize_total_idempotent.2 "RAD-12345-CT_2" (by decide) (by decide)⟩

/-- Counterexample to C5 as stated: normalisation is not idempotent on
`"A_1_2"` — the first pass strips only the final `_2`, the second pass strips
the newly exposed `_1`. -/
theorem spec_C5_counterexample :
    extractCoreAcc "A_1_2" = "A_1" ∧ extractCoreAcc "A_1" = "A" ∧
    extractCoreAcc (extractCoreAcc "A_1_2") ≠ extractCoreAcc "A_1_2" := by
  decide

/-! ### Claim C6 — the branch structure of normalisation -/

/-- C6: `_extract_core_acc` maps `""` and `"N/A"` to `""`; an input containing
`-M` for a clinical modality code `M` (at its last such occurrence, by regex
greediness) is cut just after the modality code; otherwise a trailing
`_<digits>` suffix is stripped; otherwise the input is returned unchanged;
and in particular `SITE-12345-M_7` normalises to `SITE-12345-M` for each of
the nine clinical modality codes `M`. -/
theorem spec_C6_normalize_branches :
    (extractCoreAcc "" = "" ∧ extractCoreAcc "N/A" = "") ∧
    (∀ p m t : String, m ∈ clinicalModalities → p ≠ "" →
      (∀ k, p.data.length < k → modAt (p ++ "-" ++ m ++ t).data k = false) →
      extractCoreAcc (p ++ "-" ++ m ++ t) = p ++ "-" ++ m) ∧
    (∀ b d : String, d ≠ "" → (∀ c ∈ d.data, c.isDigit = true) →
      (∀ k, modAt (b ++ "_" ++ d).data k = false) →
      extractCoreAcc (b ++ "_" ++ d) = b) ∧
    (∀ s : String, s ≠ "" → s ≠ "N/A" →
      (∀ k, modAt s.data k = false) →
      (∀ b d : String, d ≠ "" → (∀ c ∈ d.data, c.isDigit = true) → s ≠ b ++ "_" ++ d) →
      extractCoreAcc s = s) ∧
    (∀ m ∈ clinicalModalities, extractCoreAcc ("SITE-12345-" ++ m ++ "_7") = "SITE-12345-" ++ m) := by
  refine ⟨⟨by decide, by decide⟩, ?_, ?_, ?_, ?_⟩
  · -- modality branch
    intro p m t hm hp hlast
    have hm2 := clinicalModalities_len m hm
    have hpd : p.data ≠ [] := fun hc => hp (String.ext hc)
    have hdata : (p ++ "-" ++ m ++ t).data = p.data ++ '-' :: (m.data ++ t.data) := by
      simp [String.data_append]
    have hlen : (p ++ "-" ++ m ++ t).data.length =
        p.data.length + 3 + t.data.length := by
      rw [hdata]
      simp only [List.length_append, List.length_cons, hm2]
      omega
    have htake3 : ('-' :: (m.data ++ t.data)).take 3 = '-' :: m.data := by
      have h3 : ('-' :: (m.data ++ t.data)).take 3 =
          '-' :: (m.data ++ t.data).take 2 := rfl
      rw [h3, ← hm2, List.take_left]
    have hmodp : modAt (p ++ "-" ++ m ++ t).data p.data.length = true := by
      unfold modAt
      simp only [Bool.and_eq_true, decide_eq_true_eq, List.any_eq_true]
      refine ⟨by
        have := List.length_pos.mpr hpd
        omega, m, hm, ?_⟩
      rw [hdata, List.drop_left]
      exact htake3
    have hpos : lastModPos (p ++ "-" ++ m ++ t).data = some p.data.length := by
      rw [lastModPos]
      apply findLast_intro hmodp
      · omega
      · intro k hk1 _
        exact hlast k hk1
    have hne1 : (p ++ "-" ++ m ++ t) ≠ "" := by
      intro hc
      have hc3 := congrArg List.length (congrArg String.data hc)
      rw [hlen] at hc3
      have h0 : ("" : String).data.length = 0 := rfl
      rw [h0] at hc3
      omega
    have hne2 : (p ++ "-" ++ m ++ t) ≠ "N/A" := by
      intro hc
      have hc3 := congrArg List.length (congrArg String.data hc)
      rw [hlen] at hc3
      have h0 : ("N/A" : String).data.length = 3 := rfl
      rw [h0] at hc3
      have := List.length_pos.mpr hpd
      omega
    rw [extractCoreAcc_eq_of_ne hne1 hne2, coreAccL, hpos]
    show (⟨(p ++ "-" ++ m ++ t).data.take (p.data.length + 3)⟩ : String) = p ++ "-" ++ m
    apply String.ext
    show (p ++ "-" ++ m ++ t).data.take (p.data.length + 3) = (p ++ "-" ++ m).data
    have hdata2 : (p ++ "-" ++ m).data = p.data ++ '-' :: m.data := by
      simp [String.data_append]
    rw [hdata, hdata2, List.take_append, htake3]
  · -- split-suffix branch
    intro b d hd hdig hnomod
    have hdd : d.data ≠ [] := fun hc => hd (String.ext hc)
    have hdata : (b ++ "_" ++ d).data = b.data ++ '_' :: d.data := by
      simp [String.data_append]
    have hne1 : (b ++ "_" ++ d) ≠ "" := by
      intro hc
      have := congrArg String.data hc
      rw [hdata] at this
      simp at this
    have hne2 : (b ++ "_" ++ d) ≠ "N/A" := by
      intro hc
      have hmem : '_' ∈ (b ++ "_" ++ d).data := by
        rw [hdata]; simp
      rw [hc] at hmem
      exact absurd hmem (by decide)
    have hpos : lastModPos (b ++ "_" ++ d).data = none := by
      rw [lastModPos, findLast_eq_none]
      intro j _
      exact hnomod j
    rw [extractCoreAcc_eq_of_ne hne1 hne2, coreAccL, hpos]
    apply String.ext
    show stripSplitSuffix (b ++ "_" ++ d).data = b.data
    unfold stripSplitSuffix
    have hrev : (b ++ "_" ++ d).data.reverse = d.data.reverse ++ '_' :: b.data.reverse := by
      rw [hdata]
      simp [List.reverse_append]
    rw [hrev, stripRev_of_digits (by simpa using hdd)
      (fun c hc => hdig c (List.mem_reverse.mp hc))]
    simp
  · -- unchanged branch
    intro s h1 h2 hnomod hnosplit
    have hpos : lastModPos s.data = none := by
      rw [lastModPos, findLast_eq_none]
      intro j _
      exact hnomod j
    have hstr : stripRev s.data.reverse = none := by
      cases hsr : stripRev s.data.reverse with
      | none => rfl
      | some r =>
        obtain ⟨dd, hdd1, hdd2, hdd3⟩ := stripRev_decomp hsr
        have hsdata : s.data = r.reverse ++ '_' :: dd.reverse := by
          conv_lhs => rw [← s.data.reverse_reverse, hdd1]
          simp [List.reverse_append]
        have hs : s = (⟨r.reverse⟩ : String) ++ "_" ++ (⟨dd.reverse⟩ : String) := by
          apply String.ext
          rw [hsdata]
          simp [String.data_append]
        exact absurd hs (hnosplit ⟨r.reverse⟩ ⟨dd.reverse⟩
          (fun hc => hdd2 (by simpa using congrArg String.data hc))
          (fun c hc => hdd3 c (List.mem_reverse.mp hc)))
    rw [extractCoreAcc_eq_of_ne h1 h2, coreAccL, hpos]
    apply String.ext
    show stripSplitSuffix s.data = s.data
    exact stripSplitSuffix_eq_self hstr
  · -- the concrete split-suffix family
    intro m hm
    simp only [clinicalModalities, List.mem_cons, List.not_mem_nil, or_false] at hm
    rcases hm with rfl | rfl | rfl | rfl | rfl | rfl | rfl | rfl | rfl <;> decide

/-- Witness for C6: each branch applied at a concrete input. -/
theorem spec_C6_normalize_branches_witness :
    extractCoreAcc ("RAD" ++ "-" ++ "CT" ++ "_1") = "RAD" ++ "-" ++ "CT" ∧
    extractCoreAcc ("AB" ++ "_" ++ "12") = "AB" ∧
    extractCoreAcc "HELLO" = "HELLO" ∧
    extractCoreAcc ("SITE-12345-" ++ "MR" ++ "_7") = "SITE-12345-" ++ "MR" :=
  ⟨spec_C6_normalize_branches.2.1 "RAD" "CT" "_1" (by decide) (by decide)
      ((modAt_all_false_iff _ _).mpr (by decide)),
    spec_C6_normalize_branches.2.2.1 "AB" "12" (by decide) (by decide)
      ((modAt_all_false_iff' _).mpr (by decide)),
    spec_C6_normalize_branches.2.2.2.1 "HELLO" (by decide) (by decide)
      ((modAt_all_false_iff' _).mpr (by decide))
      (no_split_decomp_of_stripRev_none (by decide)),
    spec_C6_normalize_branches.2.2.2.2 "MR" (by decide)⟩

/-! ## The monitor state machine (`DicomMonitor`)

A parsed demographics dict (as produced by `_extract_fields`) has a fixed key
set, so it is embedded as a record.  The mutable attributes of the
`DicomMonitor` instance, together with the configuration values fixed in
`__init__` and the current content of the published state document, form
`MonitorState`.  Time (`time.monotonic`, `os.path.getmtime`) is modelled by
natural numbers supplied by the environment; the window monitor's
`last_patient_title` and the result of the filesystem folder scan
(`_find_in_recent_folders`) are likewise environment inputs of each step. -/

/-- The demographics dict built by `_extract_fields`: the five publishable
fields plus the internal `_Name` and the bookkeeping `_source` entries. -/
structure Study where
  name : String
  acc : String
  sex : String
  age : String
  mod : String
  studyDesc : String
  source : String := ""
deriving DecidableEq, Repr

/-- A `Study` viewed as the Python dict, with `d.get(key, "")` lookup:
unknown keys give `""`.  `_Name` and `_source` are the non-publishable
entries. -/
def Study.toDict (s : Study) : String → String := fun k =>
  if k = "Acc" then s.acc
  else if k = "Sex" then s.sex
  else if k = "Age" then s.age
  else if k = "Mod" then s.mod
  else if k = "StudyDesc" then s.studyDesc
  else if k = "_Name" then s.name
  else if k = "_source" then s.source
  else ""

/-- The Python empty dict `{}` under `.get(key, "")` lookup. -/
def emptyDict : String → String := fun _ => ""

/-- The five allowed keys of `_write_state`, in iteration order. -/
def allowedKeys : List String := ["Acc", "Sex", "Age", "Mod", "StudyDesc"]

/-- The filtering step of `_write_state`: keep only the five allowed keys,
omit falsy (absent-or-empty) values, and strip control characters from the
values kept.  The result is the key/value content of the JSON document, in
output order. -/
def writeState (d : String → String) : List (String × String) :=
  allowedKeys.filterMap (fun k => if d k = "" then none else some (k, stripCtrl (d k)))

/-- The mutable state of a `DicomMonitor` plus its fixed configuration.
`published` is the key/value content of `current_study.json` as last written
by `_write_state` (the file-level write itself is modelled separately for
claim C4). -/
structure MonitorState where
  searchActive : Bool
  searchStart : Nat
  searchTargetAcc : String
  currentLockedAcc : String
  lastPsoneMtime : Nat
  cache : List (String × Study)
  published : List (String × String)
  cacheSize : Nat
  searchTimeout : Nat
deriving DecidableEq, Repr

/-- Model of `DicomMonitor.__init__`: cleared search state, empty cache; the state
file has not been written yet. -/
def initMonitor (cacheSize searchTimeout : Nat) : MonitorState :=
  { searchActive := false
    searchStart := 0
    searchTargetAcc := ""
    currentLockedAcc := ""
    lastPsoneMtime := 0
    cache := []
    published := []
    cacheSize := cacheSize
    searchTimeout := searchTimeout }

/-- Model of `DicomMonitor._start_search`. -/
def startSearch (st : MonitorState) (accession : String) (now : Nat) : MonitorState :=
  { st with
    searchActive := true
    searchStart := now
    searchTargetAcc := accession
    currentLockedAcc := ""
    published := writeState emptyDict }

/-- Model of `DicomMonitor._stop_search` — note that it does *not* clear
`searchTargetAcc` or `currentLockedAcc`. -/
def stopSearch (st : MonitorState) : MonitorState :=
  { st with searchActive := false, searchStart := 0 }

/-- Model of `DicomMonitor.reset_state` (the logging of the reason string has no
state effect and is dropped). -/
def resetState (st : MonitorState) : MonitorState :=
  { st with
    searchActive := false
    searchStart := 0
    searchTargetAcc := ""
    currentLockedAcc := ""
    lastPsoneMtime := 0
    published := writeState emptyDict }

/-- The `OrderedDict` lookup `cache[k]` (first — and with distinct keys, only —
binding). -/
def lookupKey (c : List (String × Study)) (k : String) : Option Study :=
  (c.find? (fun p => decide (p.1 = k))).map (fun p => p.2)

/-- Remove the binding of key `k` (`OrderedDict` deletion; the key occurs at
most once). -/
def eraseKey (c : List (String × Study)) (k : String) : List (String × Study) :=
  c.filter (fun p => decide (p.1 ≠ k))

/-- The `while len(self._cache) > self.cache_size: self._cache.popitem(last=False)`
loop: repeatedly drop the least-recently-used (front) entry while over
capacity. -/
def evictLoop (cap : Nat) : List (String × Study) → List (String × Study)
  | [] => []
  | x :: rest => if cap < (x :: rest).length then evictLoop cap rest else x :: rest

/-- Model of `DicomMonitor._add_to_cache`: move an existing binding to the
most-recently-used (last) position, store the new value there, then evict
while over capacity. -/
def addToCache (cap : Nat) (c : List (String × Study)) (accession : String)
    (data : Study) : List (String × Study) :=
  evictLoop cap (eraseKey c accession ++ [(accession, data)])

/-- The name cross-check of `_try_match`:
`not window_last or window_last.upper() in dicom_name.upper()`. -/
def nameCheckPasses (windowLabel dicomName : String) : Bool :=
  let windowLast := extractLastName windowLabel
  decide (windowLast = "") ||
    containsSub (toUpperStr windowLast).data (toUpperStr dicomName).data

/-- Model of `DicomMonitor._try_match`.  `windowLabel` is
`window_monitor.last_patient_title` (`""` when no window monitor is
attached); `scan` is the value `_find_in_recent_folders(target)` would
return, supplied by the environment because it performs filesystem I/O.
Returns the match result and the updated LRU cache.  In the source the
`_source` entry is set by mutating the dict that is (or has just been)
stored in the cache, so the cached entry carries it too. -/
def tryMatch (cap : Nat) (cache : List (String × Study)) (windowLabel : String)
    (scan : Option Study) (target : String) : Option Study × List (String × Study) :=
  match lookupKey cache target with
  | some data =>
      if nameCheckPasses windowLabel data.name then
        let data2 := { data with source := "cache" }
        (some data2, eraseKey cache target ++ [(target, data2)])
      else
        (none, cache)
  | none =>
      match scan with
      | none => (none, cache)
      | some data =>
          if nameCheckPasses windowLabel data.name then
            let data2 := { data with source := "recent_folders" }
            (some data2, addToCache cap cache target data2)
          else
            (none, addToCache cap cache target data)

/-- Model of `DicomMonitor.continue_search`, one timer tick.  `now` is the current
monotonic time; `windowLabel` and `scan` as in `tryMatch`. -/
def continueSearch (st : MonitorState) (now : Nat) (windowLabel : String)
    (scan : Option Study) : MonitorState :=
  if st.searchActive = false then st
  else if st.searchTimeout < now - st.searchStart then stopSearch st
  else
    let r := tryMatch st.cacheSize st.cache windowLabel scan st.searchTargetAcc
    match r.1 with
    | some data =>
        stopSearch { st with
          currentLockedAcc := st.searchTargetAcc
          published := writeState data.toDict
          cache := r.2 }
    | none => { st with cache := r.2 }

/-- Model of `DicomMonitor.on_psone_log_changed`.  `hasWindowMonitor` models whether
`self.window_monitor` is attached, `windowLabel` its `last_patient_title`;
`logExists` models the `_psone_log_path`/`os.path.isfile` checks; `mtime`
the log's modification time; `acc` the accession `_parse_psone_log`
returned for the log's current content; `now` the monotonic clock read by
`_start_search`. -/
def onPsoneLogChanged (st : MonitorState) (hasWindowMonitor : Bool)
    (windowLabel : String) (logExists : Bool) (mtime : Nat) (acc : String)
    (now : Nat) : MonitorState :=
  if hasWindowMonitor = true ∧ windowLabel = "" then st
  else if logExists = false then st
  else if mtime = st.lastPsoneMtime then st
  else
    let st1 := { st with lastPsoneMtime := mtime }
    if acc ≠ "" ∧ acc ≠ st.searchTargetAcc ∧ acc ≠ st.currentLockedAcc then
      startSearch st1 acc now
    else st1

/-! ### Lemmas about the published document -/

theorem stripCtrl_mem {s : String} {c : Char} (h : c ∈ (stripCtrl s).data) :
    0x1f < c.toNat := by
  have h2 : c ∈ s.data.filter (fun c => decide (0x1f < c.toNat)) := h
  simp only [List.mem_filter, decide_eq_true_eq] at h2
  exact h2.2

/-- Every entry written by `_write_state` comes from one of the five allowed
keys, with a truthy value whose control characters were stripped. -/
theorem writeState_key_mem {d : String → String} {kv : String × String}
    (h : kv ∈ writeState d) :
    kv.1 ∈ allowedKeys ∧ kv.2 = stripCtrl (d kv.1) ∧ d kv.1 ≠ "" := by
  rw [writeState, List.mem_filterMap] at h
  obtain ⟨k, hk, hf⟩ := h
  by_cases hdk : d k = ""
  · rw [if_pos hdk] at hf
    exact absurd hf (by simp)
  · rw [if_neg hdk] at hf
    injection hf with hf
    subst hf
    exact ⟨hk, rfl, hdk⟩

theorem writeState_emptyDict : writeState emptyDict = [] := by
  decide

/-- Lemma: `_write_state` ignores the `_Name` and `_source` entries of a
demographics dict, so setting `_source` does not change the published
document. -/
theorem writeState_toDict_source (d : Study) (s : String) :
    writeState (Study.toDict { d with source := s }) = writeState d.toDict := by
  simp [writeState, allowedKeys, Study.toDict, List.filterMap_cons]

/-! ### Claim C1 — the published document is privacy-filtered -/

/-- C1: for every demographics dict, the published document has keys only
among the five allowed ones, never `_Name`; absent-or-empty fields are
omitted; kept values are the dict's values with control characters
(U+0000–U+001F) stripped, hence contain none. -/
theorem spec_C1_publish_privacy_filter :
    ∀ d : String → String,
      (∀ kv ∈ writeState d, kv.1 ∈ allowedKeys) ∧
      (∀ kv ∈ writeState d, kv.1 ≠ "_Name") ∧
      (∀ k, d k = "" → ∀ kv ∈ writeState d, kv.1 ≠ k) ∧
      (∀ kv ∈ writeState d, kv.2 = stripCtrl (d kv.1)) ∧
      (∀ kv ∈ writeState d, ∀ c ∈ kv.2.data, 0x1f < c.toNat) := by
  intro d
  refine ⟨fun kv hkv => (writeState_key_mem hkv).1, fun kv hkv hc => ?_,
    fun k hk0 kv hkv hc => ?_, fun kv hkv => (writeState_key_mem hkv).2.1,
    fun kv hkv c hc => ?_⟩
  · have := (writeState_key_mem hkv).1
    rw [hc] at this
    exact absurd this (by decide)
  · have := (writeState_key_mem hkv).2.2
    rw [hc, hk0] at this
    exact this rfl
  · have h2 := (writeState_key_mem hkv).2.1
    rw [h2] at hc
    exact stripCtrl_mem hc

/-- Witness for C1: a concrete demographics dict (with a patient name and an
empty `Age`) published through the filter. -/
theorem spec_C1_publish_privacy_filter_witness :
    (("Sex", "M") ∈
      writeState (Study.toDict ⟨"DOE^JOHN", "RAD-1-CT", "M", "", "CT", "CT CHEST", ""⟩)) ∧
    ("Sex" : String) ∈ allowedKeys :=
  ⟨by decide,
    (spec_C1_publish_privacy_filter
      (Study.toDict ⟨"DOE^JOHN", "RAD-1-CT", "M", "", "CT", "CT CHEST", ""⟩)).1
      ("Sex", "M") (by decide)⟩

/-! ### Claim C3 — the safety reset -/

/-- C3: `reset_state` unconditionally clears the active flag, the target and
locked accessions and the log-mtime dedup marker, publishes the empty
document, is idempotent, and on an already-idle state only re-publishes the
empty document. -/
theorem spec_C3_safety_reset :
    ∀ st : MonitorState,
      (resetState st).searchActive = false ∧
      (resetState st).searchTargetAcc = "" ∧
      (resetState st).currentLockedAcc = "" ∧
      (resetState st).lastPsoneMtime = 0 ∧
      (resetState st).published = writeState emptyDict ∧
      writeState emptyDict = [] ∧
      resetState (resetState st) = resetState st ∧
      (st.searchActive = false ∧ st.searchStart = 0 ∧ st.searchTargetAcc = "" ∧
        st.currentLockedAcc = "" ∧ st.lastPsoneMtime = 0 →
        resetState st = { st with published := writeState emptyDict }) := by
  intro st
  refine ⟨rfl, rfl, rfl, rfl, rfl, writeState_emptyDict, rfl, ?_⟩
  rintro ⟨h1, h2, h3, h4, h5⟩
  cases st
  simp only [resetState] at *
  simp_all

/-- Witness for C3: resetting the freshly initialised (idle) monitor only
re-publishes the empty document. -/
theorem spec_C3_safety_reset_witness :
    resetState (initMonitor 5 120) =
      { initMonitor 5 120 with published := writeState emptyDict } :=
  (spec_C3_safety_reset (initMonitor 5 120)).2.2.2.2.2.2.2
    ⟨rfl, rfl, rfl, rfl, rfl⟩

/-! ### Lemmas about the LRU cache -/

theorem evictLoop_length_le (cap : Nat) (c : List (String × Study)) :
    (evictLoop cap c).length ≤ cap := by
  induction c with
  | nil => simp [evictLoop]
  | cons x rest ih =>
    simp only [evictLoop]
    split
    · exact ih
    · rename_i h
      simp only [List.length_cons] at h ⊢
      omega

theorem evictLoop_of_le {cap : Nat} {c : List (String × Study)}
    (h : c.length ≤ cap) : evictLoop cap c = c := by
  cases c with
  | nil => simp [evictLoop]
  | cons x rest =>
    simp only [evictLoop]
    simp only [List.length_cons] at h
    rw [if_neg (by simp only [List.length_cons]; omega)]

theorem evictLoop_tail {cap : Nat} {c : List (String × Study)}
    (h : c.length = cap + 1) : evictLoop cap c = c.tail := by
  cases c with
  | nil => simp at h
  | cons x rest =>
    simp only [evictLoop]
    simp only [List.length_cons] at h
    rw [if_pos (by simp only [List.length_cons]; omega)]
    exact evictLoop_of_le (by omega)

theorem lookupKey_none_find? {c : List (String × Study)} {k : String}
    (h : lookupKey c k = none) : ∀ p ∈ c, p.1 ≠ k := by
  rw [lookupKey, Option.map_eq_none'] at h
  intro p hp
  have := List.find?_eq_none.mp h p hp
  simpa using this

theorem eraseKey_of_none {c : List (String × Study)} {k : String}
    (h : lookupKey c k = none) : eraseKey c k = c := by
  rw [eraseKey, List.filter_eq_self]
  intro p hp
  simpa using lookupKey_none_find? h p hp

theorem eraseKey_length_lt {c : List (String × Study)} {k : String} {d : Study}
    (h : lookupKey c k = some d) : (eraseKey c k).length < c.length := by
  rw [lookupKey, Option.map_eq_some'] at h
  obtain ⟨p, hp1, _⟩ := h
  rw [eraseKey, List.length_filter_lt_length_iff_exists]
  refine ⟨p, List.mem_of_find?_eq_some hp1, ?_⟩
  have := List.find?_some hp1
  simpa using this

theorem lookupKey_erase_append (c : List (String × Study)) (k : String) (v : Study) :
    lookupKey (eraseKey c k ++ [(k, v)]) k = some v := by
  rw [lookupKey, List.find?_append]
  have h1 : (eraseKey c k).find? (fun p => decide (p.1 = k)) = none := by
    rw [List.find?_eq_none]
    intro p hp
    rw [eraseKey, List.mem_filter] at hp
    simpa using of_decide_eq_true hp.2
  rw [h1]
  simp [List.find?]

/-! ### Claim C7 — the LRU cache invariant (amended) -/

/-- C7 (amended): `_add_to_cache` keeps the cache within capacity, appends
the new binding at the most-recently-used end, evicts exactly the
least-recently-used entry when a new key overflows a full cache, and updates
in place (no eviction) for a known key; a tick's cache consultation keeps
the cache within capacity, and a cache hit is moved to the
most-recently-used end when the name cross-check passes — but a hit whose
candidate fails the cross-check leaves the recency order unchanged (the
unamended claim's "every Get hit marks the entry most-recently-used" fails
there, see the counterexample). -/
theorem spec_C7_lru_invariant :
    (∀ (cap : Nat) (c : List (String × Study)) (acc : String) (d : Study),
      (addToCache cap c acc d).length ≤ cap) ∧
    (∀ (cap : Nat) (c : List (String × Study)) (acc : String) (d : Study),
      lookupKey c acc = none → c.length < cap →
      addToCache cap c acc d = c ++ [(acc, d)]) ∧
    (∀ (cap : Nat) (c : List (String × Study)) (acc : String) (d : Study),
      0 < cap → lookupKey c acc = none → c.length = cap →
      addToCache cap c acc d = c.tail ++ [(acc, d)]) ∧
    (∀ (cap : Nat) (c : List (String × Study)) (acc : String) (d dOld : Study),
      c.length ≤ cap → lookupKey c acc = some dOld →
      addToCache cap c acc d = eraseKey c acc ++ [(acc, d)]) ∧
    (∀ (cap : Nat) (c : List (String × Study)) (w : String) (scan : Option Study)
      (target : String), c.length ≤ cap →
      ((tryMatch cap c w scan target).2).length ≤ cap) ∧
    (∀ (cap : Nat) (c : List (String × Study)) (w : String) (scan : Option Study)
      (target : String) (d : Study), lookupKey c target = some d →
      (nameCheckPasses w d.name = true →
        (tryMatch cap c w scan target).2 =
          eraseKey c target ++ [(target, { d with source := "cache" })]) ∧
      (nameCheckPasses w d.name = false →
        (tryMatch cap c w scan target).2 = c)) := by
  refine ⟨?_, ?_, ?_, ?_, ?_, ?_⟩
  · intro cap c acc d
    exact evictLoop_length_le cap _
  · intro cap c acc d hnone hlt
    rw [addToCache, eraseKey_of_none hnone]
    exact evictLoop_of_le (by simp; omega)
  · intro cap c acc d hcap hnone hlen
    rw [addToCache, eraseKey_of_none hnone, evictLoop_tail (by simp [hlen])]
    cases c with
    | nil => simp at hlen; omega
    | cons x rest => rfl
  · intro cap c acc d dOld hle hsome
    rw [addToCache]
    apply evictLoop_of_le
    have := eraseKey_length_lt hsome
    simp only [List.length_append, List.length_cons, List.length_nil]
    omega
  · intro cap c w scan target hle
    cases hlk : lookupKey c target with
    | some d =>
      by_cases hnc : nameCheckPasses w d.name
      · simp only [tryMatch, hlk, if_pos hnc]
        have := eraseKey_length_lt hlk
        simp only [List.length_append, List.length_cons, List.length_nil]
        omega
      · simp only [tryMatch, hlk, if_neg hnc]
        exact hle
    | none =>
      cases scan with
      | none => simp only [tryMatch, hlk]; exact hle
      | some d =>
        by_cases hnc : nameCheckPasses w d.name
        · simp only [tryMatch, hlk, if_pos hnc]
          exact evictLoop_length_le cap _
        · simp only [tryMatch, hlk, if_neg hnc]
          exact evictLoop_length_le cap _
  · intro cap c w scan target d hlk
    constructor
    · intro hnc
      simp only [tryMatch, hlk, if_pos hnc]
    · intro hnc
      simp only [tryMatch, hlk, hnc, Bool.false_eq_true, if_false]

/-- Witness for C7: an over-capacity `Put` that evicts the
least-recently-used entry and a passing `Get` that moves the hit to the
most-recently-used position, on concrete caches. -/
theorem spec_C7_lru_invariant_witness :
    (addToCache 1
      [("RAD-1-CT", (⟨"DOE^JOHN", "RAD-1-CT", "M", "045Y", "CT", "CT CHEST", ""⟩ : Study))]
      "RAD-2-MR" ⟨"ROE^JANE", "RAD-2-MR", "F", "030Y", "MR", "MR BRAIN", ""⟩ =
      [("RAD-1-CT", (⟨"DOE^JOHN", "RAD-1-CT", "M", "045Y", "CT", "CT CHEST", ""⟩ : Study))].tail ++
        [("RAD-2-MR", ⟨"ROE^JANE", "RAD-2-MR", "F", "030Y", "MR", "MR BRAIN", ""⟩)]) ∧
    ((tryMatch 5
      [("RAD-1-CT", (⟨"DOE^JOHN", "RAD-1-CT", "M", "045Y", "CT", "CT CHEST", ""⟩ : Study))]
      "DOE^JOHN - Study" none "RAD-1-CT").2 =
      eraseKey
        [("RAD-1-CT", (⟨"DOE^JOHN", "RAD-1-CT", "M", "045Y", "CT", "CT CHEST", ""⟩ : Study))]
        "RAD-1-CT" ++
        [("RAD-1-CT",
          { (⟨"DOE^JOHN", "RAD-1-CT", "M", "045Y", "CT", "CT CHEST", ""⟩ : Study) with
            source := "cache" })]) :=
  ⟨spec_C7_lru_invariant.2.2.1 1
      [("RAD-1-CT", ⟨"DOE^JOHN", "RAD-1-CT", "M", "045Y", "CT", "CT CHEST", ""⟩)]
      "RAD-2-MR" ⟨"ROE^JANE", "RAD-2-MR", "F", "030Y", "MR", "MR BRAIN", ""⟩
      (by decide) (by decide) (by decide),
    (spec_C7_lru_invariant.2.2.2.2.2 5
      [("RAD-1-CT", ⟨"DOE^JOHN", "RAD-1-CT", "M", "045Y", "CT", "CT CHEST", ""⟩)]
      "DOE^JOHN - Study" none "RAD-1-CT"
      ⟨"DOE^JOHN", "RAD-1-CT", "M", "045Y", "CT", "CT CHEST", ""⟩
      (by decide)).1 (by decide)⟩

/-- Counterexample to C7 as stated: a cache hit whose candidate fails the
window-name cross-check is *not* moved to the most-recently-used position —
the cache is returned unchanged, with the hit entry still in
least-recently-used position. -/
theorem spec_C7_counterexample :
    lookupKey
      [("RAD-1-CT", ⟨"DOE^JOHN", "RAD-1-CT", "M", "045Y", "CT", "CT CHEST", ""⟩),
       ("RAD-2-MR", ⟨"ROE^JANE", "RAD-2-MR", "F", "030Y", "MR", "MR BRAIN", ""⟩)]
      "RAD-1-CT" =
      some ⟨"DOE^JOHN", "RAD-1-CT", "M", "045Y", "CT", "CT CHEST", ""⟩ ∧
    (tryMatch 5
      [("RAD-1-CT", ⟨"DOE^JOHN", "RAD-1-CT", "M", "045Y", "CT", "CT CHEST", ""⟩),
       ("RAD-2-MR", ⟨"ROE^JANE", "RAD-2-MR", "F", "030Y", "MR", "MR BRAIN", ""⟩)]
      "SMITH^JANE - Study" none "RAD-1-CT").2 =
      [("RAD-1-CT", ⟨"DOE^JOHN", "RAD-1-CT", "M", "045Y", "CT", "CT CHEST", ""⟩),
       ("RAD-2-MR", ⟨"ROE^JANE", "RAD-2-MR", "F", "030Y", "MR", "MR BRAIN", ""⟩)] ∧
    ((tryMatch 5
      [("RAD-1-CT", ⟨"DOE^JOHN", "RAD-1-CT", "M", "045Y", "CT", "CT CHEST", ""⟩),
       ("RAD-2-MR", ⟨"ROE^JANE", "RAD-2-MR", "F", "030Y", "MR", "MR BRAIN", ""⟩)]
      "SMITH^JANE - Study" none "RAD-1-CT").2.getLast?.map Prod.fst ≠
      some "RAD-1-CT") := by
  decide

/-! ### Lemmas about the search tick -/

/-- The candidate `_try_match` assesses: the cached entry if the target is
cached, otherwise the folder-scan result. -/
def findCandidate (cache : List (String × Study)) (scan : Option Study)
    (target : String) : Option Study :=
  match lookupKey cache target with
  | some d => some d
  | none => scan

theorem continueSearch_of_active {st : MonitorState} {now : Nat} {w : String}
    {scan : Option Study} (hact : st.searchActive = true)
    (htime : ¬ (st.searchTimeout < now - st.searchStart)) :
    continueSearch st now w scan =
      match (tryMatch st.cacheSize st.cache w scan st.searchTargetAcc).1 with
      | some data => stopSearch { st with
          currentLockedAcc := st.searchTargetAcc
          published := writeState data.toDict
          cache := (tryMatch st.cacheSize st.cache w scan st.searchTargetAcc).2 }
      | none => { st with
          cache := (tryMatch st.cacheSize st.cache w scan st.searchTargetAcc).2 } := by
  rw [continueSearch, if_neg (by simp [hact]), if_neg htime]

/-- Lemma: `_try_match`'s result on a found candidate, by the two candidate
sources. -/
theorem tryMatch_of_candidate {cache : List (String × Study)} {scan : Option Study}
    {target : String} {d : Study} (cap : Nat) (w : String)
    (hcand : findCandidate cache scan target = some d) :
    (nameCheckPasses w d.name = true →
      (tryMatch cap cache w scan target).1 =
        some { d with source :=
          if (lookupKey cache target).isSome then "cache" else "recent_folders" }) ∧
    (nameCheckPasses w d.name = false →
      (tryMatch cap cache w scan target).1 = none) := by
  rw [findCandidate] at hcand
  cases hlk : lookupKey cache target with
  | some d0 =>
    rw [hlk] at hcand
    injection hcand with hcand
    subst hcand
    constructor
    · intro hnc
      simp only [tryMatch, hlk, if_pos hnc, Option.isSome_some, if_true]
    · intro hnc
      simp only [tryMatch, hlk, hnc, Bool.false_eq_true, if_false]
  | none =>
    rw [hlk] at hcand
    subst hcand
    constructor
    · intro hnc
      simp only [tryMatch, hlk, if_pos hnc, Option.isSome_none, Bool.false_eq_true,
        if_false]
    · intro hnc
      simp only [tryMatch, hlk, hnc, Bool.false_eq_true, if_false]

/-! ### Claim C2 — lock and publish are guarded by the name cross-check -/

/-- C2: during an active, non-timed-out search tick with a candidate for the
target accession, the candidate is locked and published exactly when the
window label is unknown (empty) or its leading name component, uppercased,
occurs in the candidate's full patient name, uppercased; on a pass the
published document is the privacy-filtered field set (never `_Name`), and on
a mismatch nothing is locked or published and the search stays active on the
same target. -/
theorem spec_C2_name_crosscheck :
    ∀ (st : MonitorState) (now : Nat) (w : String) (scan : Option Study) (d : Study),
      st.searchActive = true →
      ¬ (st.searchTimeout < now - st.searchStart) →
      findCandidate st.cache scan st.searchTargetAcc = some d →
      ((nameCheckPasses w d.name = true →
        (continueSearch st now w scan).currentLockedAcc = st.searchTargetAcc ∧
        (continueSearch st now w scan).searchActive = false ∧
        (continueSearch st now w scan).published = writeState d.toDict ∧
        ∀ kv ∈ (continueSearch st now w scan).published,
          kv.1 ∈ allowedKeys ∧ kv.1 ≠ "_Name") ∧
      (nameCheckPasses w d.name = false →
        (continueSearch st now w scan).currentLockedAcc = st.currentLockedAcc ∧
        (continueSearch st now w scan).published = st.published ∧
        (continueSearch st now w scan).searchActive = true ∧
        (continueSearch st now w scan).searchTargetAcc = st.searchTargetAcc)) := by
  intro st now w scan d hact htime hcand
  have hres := tryMatch_of_candidate st.cacheSize w hcand
  constructor
  · intro hnc
    have h1 := hres.1 hnc
    rw [continueSearch_of_active hact htime, h1]
    refine ⟨rfl, rfl, ?_, ?_⟩
    · exact writeState_toDict_source d _
    · intro kv hkv
      have hmem := writeState_key_mem hkv
      refine ⟨hmem.1, fun hc => ?_⟩
      have := hmem.1
      rw [hc] at this
      exact absurd this (by decide)
  · intro hnc
    have h1 := hres.2 hnc
    rw [continueSearch_of_active hact htime, h1]
    exact ⟨rfl, rfl, hact, rfl⟩

/-- Witness for C2: a concrete locked-and-published pass (matching window)
and a concrete rejected mismatch, from the cache path. -/
theorem spec_C2_name_crosscheck_witness :
    ((continueSearch
      { initMonitor 5 120 with
        searchActive := true
        searchTargetAcc := "RAD-1-CT"
        cache := [("RAD-1-CT",
          ⟨"DOE^JOHN", "RAD-1-CT", "M", "045Y", "CT", "CT CHEST", ""⟩)] }
      10 "DOE^JOHN - Study" none).currentLockedAcc = "RAD-1-CT" ∧
    (continueSearch
      { initMonitor 5 120 with
        searchActive := true
        searchTargetAcc := "RAD-1-CT"
        cache := [("RAD-1-CT",
          ⟨"DOE^JOHN", "RAD-1-CT", "M", "045Y", "CT", "CT CHEST", ""⟩)] }
      10 "DOE^JOHN - Study" none).searchActive = false) ∧
    ((continueSearch
      { initMonitor 5 120 with
        searchActive := true
        searchTargetAcc := "RAD-1-CT"
        cache := [("RAD-1-CT",
          ⟨"DOE^JOHN", "RAD-1-CT", "M", "045Y", "CT", "CT CHEST", ""⟩)] }
      10 "SMITH^JANE - Study" none).searchActive = true ∧
    (continueSearch
      { initMonitor 5 120 with
        searchActive := true
        searchTargetAcc := "RAD-1-CT"
        cache := [("RAD-1-CT",
          ⟨"DOE^JOHN", "RAD-1-CT", "M", "045Y", "CT", "CT CHEST", ""⟩)] }
      10 "SMITH^JANE - Study" none).currentLockedAcc = "") := by
  have hpass := (spec_C2_name_crosscheck
    { initMonitor 5 120 with
      searchActive := true
      searchTargetAcc := "RAD-1-CT"
      cache := [("RAD-1-CT", ⟨"DOE^JOHN", "RAD-1-CT", "M", "045Y", "CT", "CT CHEST", ""⟩)] }
    10 "DOE^JOHN - Study" none
    ⟨"DOE^JOHN", "RAD-1-CT", "M", "045Y", "CT", "CT CHEST", ""⟩
    (by decide) (by decide) (by decide)).1 (by decide)
  have hfail := (spec_C2_name_crosscheck
    { initMonitor 5 120 with
      searchActive := true
      searchTargetAcc := "RAD-1-CT"
      cache := [("RAD-1-CT", ⟨"DOE^JOHN", "RAD-1-CT", "M", "045Y", "CT", "CT CHEST", ""⟩)] }
    10 "SMITH^JANE - Study" none
    ⟨"DOE^JOHN", "RAD-1-CT", "M", "045Y", "CT", "CT CHEST", ""⟩
    (by decide) (by decide) (by decide)).2 (by decide)
  exact ⟨⟨hpass.1, hpass.2.1⟩, ⟨hfail.2.2.1, hfail.1⟩⟩

/-! ### Claim C10 — a cached target shadows the folder scan -/

/-- C10: when the cache holds an entry for the active target, the match
attempt is decided by the cached entry alone — its outcome is independent of
whatever the folder scan would return — a mismatching cached candidate
leaves the cache (hence the next tick's decision) unchanged, and the entry
for the target survives the attempt with the same demographics, so it can
only disappear through eviction or reset. -/
theorem spec_C10_cache_shadows_scan :
    ∀ (st : MonitorState) (now : Nat) (w : String) (scan scan2 : Option Study)
      (d : Study),
      lookupKey st.cache st.searchTargetAcc = some d →
      (tryMatch st.cacheSize st.cache w scan st.searchTargetAcc =
        tryMatch st.cacheSize st.cache w scan2 st.searchTargetAcc) ∧
      (continueSearch st now w scan = continueSearch st now w scan2) ∧
      (nameCheckPasses w d.name = false →
        tryMatch st.cacheSize st.cache w scan st.searchTargetAcc = (none, st.cache)) ∧
      (∃ d2, lookupKey ((tryMatch st.cacheSize st.cache w scan st.searchTargetAcc).2)
          st.searchTargetAcc = some d2 ∧ d2.name = d.name ∧ d2.acc = d.acc ∧
          d2.sex = d.sex ∧ d2.age = d.age ∧ d2.mod = d.mod ∧
          d2.studyDesc = d.studyDesc) := by
  intro st now w scan scan2 d hlk
  have htm : ∀ sc : Option Study,
      tryMatch st.cacheSize st.cache w sc st.searchTargetAcc =
        tryMatch st.cacheSize st.cache w scan st.searchTargetAcc := by
    intro sc
    simp only [tryMatch, hlk]
  refine ⟨(htm scan2).symm, ?_, ?_, ?_⟩
  · by_cases hact : st.searchActive = false
    · rw [continueSearch, if_pos hact, continueSearch, if_pos hact]
    · have hact2 : st.searchActive = true := by
        cases h : st.searchActive
        · exact absurd h hact
        · rfl
      by_cases htime : st.searchTimeout < now - st.searchStart
      · rw [continueSearch, if_neg (by simp [hact2]), if_pos htime,
          continueSearch, if_neg (by simp [hact2]), if_pos htime]
      · rw [continueSearch_of_active hact2 htime, continueSearch_of_active hact2 htime,
          htm scan2]
  · intro hnc
    simp only [tryMatch, hlk, hnc, Bool.false_eq_true, if_false]
  · by_cases hnc : nameCheckPasses w d.name
    · refine ⟨{ d with source := "cache" }, ?_, rfl, rfl, rfl, rfl, rfl, rfl⟩
      simp only [tryMatch, hlk, if_pos hnc]
      exact lookupKey_erase_append st.cache st.searchTargetAcc _
    · refine ⟨d, ?_, rfl, rfl, rfl, rfl, rfl, rfl⟩
      simp only [tryMatch, hlk, hnc, Bool.false_eq_true, if_false]

/-- Witness for C10: with the target cached and a mismatching window, the
tick's outcome ignores the folder-scan input entirely. -/
theorem spec_C10_cache_shadows_scan_witness :
    continueSearch
      { initMonitor 5 120 with
        searchActive := true
        searchTargetAcc := "RAD-1-CT"
        cache := [("RAD-1-CT",
          ⟨"DOE^JOHN", "RAD-1-CT", "M", "045Y", "CT", "CT CHEST", ""⟩)] }
      10 "SMITH^JANE - Study"
      (some ⟨"OTHER^GUY", "RAD-1-CT", "M", "050Y", "CT", "CT HEAD", ""⟩) =
    continueSearch
      { initMonitor 5 120 with
        searchActive := true
        searchTargetAcc := "RAD-1-CT"
        cache := [("RAD-1-CT",
          ⟨"DOE^JOHN", "RAD-1-CT", "M", "045Y", "CT", "CT CHEST", ""⟩)] }
      10 "SMITH^JANE - Study" none :=
  (spec_C10_cache_shadows_scan
    { initMonitor 5 120 with
      searchActive := true
      searchTargetAcc := "RAD-1-CT"
      cache := [("RAD-1-CT", ⟨"DOE^JOHN", "RAD-1-CT", "M", "045Y", "CT", "CT CHEST", ""⟩)] }
    10 "SMITH^JANE - Study"
    (some ⟨"OTHER^GUY", "RAD-1-CT", "M", "050Y", "CT", "CT HEAD", ""⟩) none
    ⟨"DOE^JOHN", "RAD-1-CT", "M", "045Y", "CT", "CT CHEST", ""⟩
    (by decide)).2.1

/-! ### Claim C8 — trigger deduplication (amended) -/

/-- C8 (amended): once the guards pass (window open, log present, mtime
changed), the trigger starts a new search exactly when the nonempty
candidate differs from *both* the remembered search target and the locked
accession.  Because `_stop_search` leaves `searchTargetAcc` in place, the
remembered target persists after a timeout, so a candidate equal to a
just-timed-out accession is rejected — it does *not* restart immediately
(see the counterexample). -/
theorem spec_C8_trigger_dedup :
    ∀ (st : MonitorState) (hwm : Bool) (w : String) (le : Bool) (mt : Nat)
      (acc : String) (now : Nat),
      ¬ (hwm = true ∧ w = "") →
      le = true →
      mt ≠ st.lastPsoneMtime →
      acc ≠ "" →
      ((acc ≠ st.searchTargetAcc ∧ acc ≠ st.currentLockedAcc →
        onPsoneLogChanged st hwm w le mt acc now =
          startSearch { st with lastPsoneMtime := mt } acc now) ∧
      (acc = st.searchTargetAcc ∨ acc = st.currentLockedAcc →
        onPsoneLogChanged st hwm w le mt acc now = { st with lastPsoneMtime := mt }) ∧
      (stopSearch st).searchTargetAcc = st.searchTargetAcc) := by
  intro st hwm w le mt acc now hguard hle hmt hacc
  have hbase : onPsoneLogChanged st hwm w le mt acc now =
      if acc ≠ "" ∧ acc ≠ st.searchTargetAcc ∧ acc ≠ st.currentLockedAcc then
        startSearch { st with lastPsoneMtime := mt } acc now
      else { st with lastPsoneMtime := mt } := by
    rw [onPsoneLogChanged, if_neg hguard, if_neg (by simp [hle]), if_neg hmt]
  refine ⟨?_, ?_, rfl⟩
  · intro hne
    rw [hbase, if_pos ⟨hacc, hne.1, hne.2⟩]
  · intro heq
    rw [hbase, if_neg ?_]
    rintro ⟨_, h1, h2⟩
    rcases heq with h | h
    · exact h1 h
    · exact h2 h

/-- Witness for C8: a genuinely new accession (different from the target and
the lock) starts a search, and the timed-out target survives `_stop_search`.
-/
theorem spec_C8_trigger_dedup_witness :
    onPsoneLogChanged (startSearch (initMonitor 5 120) "RAD-1-CT" 0)
      true "DOE^JOHN - Study" true 7 "RAD-2-MR" 50 =
    startSearch
      { startSearch (initMonitor 5 120) "RAD-1-CT" 0 with lastPsoneMtime := 7 }
      "RAD-2-MR" 50 :=
  (spec_C8_trigger_dedup (startSearch (initMonitor 5 120) "RAD-1-CT" 0)
    true "DOE^JOHN - Study" true 7 "RAD-2-MR" 50
    (by decide) rfl (by decide) (by decide)).1 ⟨by decide, by decide⟩

/-- Counterexample to C8 as stated: after a search for `RAD-1-CT` times out
(started at 0, tick at 121 > 120 s), re-triggering with the same accession
does not start a new search — the stale `searchTargetAcc` still blocks it,
the monitor only records the new log mtime. -/
theorem spec_C8_counterexample :
    (continueSearch (startSearch (initMonitor 5 120) "RAD-1-CT" 0)
      121 "" none).searchActive = false ∧
    (continueSearch (startSearch (initMonitor 5 120) "RAD-1-CT" 0)
      121 "" none).searchTargetAcc = "RAD-1-CT" ∧
    onPsoneLogChanged
      (continueSearch (startSearch (initMonitor 5 120) "RAD-1-CT" 0) 121 "" none)
      true "DOE^JOHN - Study" true 7 "RAD-1-CT" 200 =
    { continueSearch (startSearch (initMonitor 5 120) "RAD-1-CT" 0) 121 "" none with
      lastPsoneMtime := 7 } ∧
    (onPsoneLogChanged
      (continueSearch (startSearch (initMonitor 5 120) "RAD-1-CT" 0) 121 "" none)
      true "DOE^JOHN - Study" true 7 "RAD-1-CT" 200).searchActive = false := by
  decide

/-! ## The state-file write (`_write_state`, file level)

`_write_state` serialises the filtered document with `json.dump` to a fresh
temporary file created by `tempfile.mkstemp(dir=self.data_dir)` in the
destination directory, then `os.replace`s it over `current_study.json`.  The
filesystem is modelled as a map from paths to optional file contents, and a
write as the list of filesystem states a concurrent reader could observe:
the empty temporary file, each partially written temporary file, and the
state after the atomic rename.  An `OSError` anywhere before the rename
aborts the sequence and unlinks only the temporary file.  `json.dump`'s
`ensure_ascii` escaping of non-ASCII characters is not spelled out (the
escape map below covers the quote, the backslash and — unreachable after
control stripping — the control characters); no claim depends on it. -/

/-- One hexadecimal digit, lowercase. -/
def hexDigit (n : Nat) : Char :=
  if n < 10 then Char.ofNat (48 + n) else Char.ofNat (87 + n)

/-- The JSON string escaping applied by `json.dump` to one character. -/
def escapeJsonChar (c : Char) : List Char :=
  if c = '\"' then ['\\', '\"']
  else if c = '\\' then ['\\', '\\']
  else if c.toNat < 0x20 then
    ['\\', 'u', '0', '0', hexDigit (c.toNat / 16), hexDigit (c.toNat % 16)]
  else [c]

/-- Model of `json.dump` of the filtered document (a string-to-string object), with
the default separators. -/
def serializeState (l : List (String × String)) : String :=
  "\x7b" ++ String.intercalate ", "
    (l.map (fun kv =>
      "\"" ++ (⟨(kv.1.data.map escapeJsonChar).flatten⟩ : String) ++ "\": \"" ++
        (⟨(kv.2.data.map escapeJsonChar).flatten⟩ : String) ++ "\"")) ++ "\x7d"

/-- The filesystem states a reader can observe during one `_write_state`
call that runs to completion: `mkstemp` creates the empty `tmp`, the
serialised `content` is written to `tmp` in any number of steps, and
`os.replace` atomically renames `tmp` over `dest`. -/
def writeTrace (fs : String → Option String) (dest tmp content : String) :
    List (String → Option String) :=
  ((List.range (content.length + 1)).map (fun i =>
    fun p => if p = tmp then some ⟨content.data.take i⟩ else fs p)) ++
  [fun p => if p = tmp then none else if p = dest then some content else fs p]

/-! ### Claim C4 — atomicity of the published state -/

/-- C4: in every observable filesystem state before the final rename the
destination still holds its previous content (so a failed write, which
aborts before the rename and unlinks only the temporary file, leaves the
previously published document intact); the final state holds the full new
document at the destination and has removed the temporary file; and
publishing the empty field set yields the two-character document `{}` — a
present file, distinguishable from an absent one. -/
theorem spec_C4_atomic_publish :
    ∀ (fs : String → Option String) (dest tmp : String) (data : String → String),
      tmp ≠ dest →
      ((∀ g ∈ (writeTrace fs dest tmp (serializeState (writeState data))).dropLast,
          g dest = fs dest) ∧
       (∀ g ∈ (writeTrace fs dest tmp (serializeState (writeState data))).dropLast,
          (fun p => if p = tmp then none else g p) dest = fs dest) ∧
       (∃ g, (writeTrace fs dest tmp (serializeState (writeState data))).getLast? =
          some g ∧ g dest = some (serializeState (writeState data)) ∧
          g dest ≠ none ∧ g tmp = none) ∧
       serializeState (writeState emptyDict) = "\x7b\x7d") := by
  intro fs dest tmp data hne
  have hdl : (writeTrace fs dest tmp (serializeState (writeState data))).dropLast =
      (List.range ((serializeState (writeState data)).length + 1)).map (fun i =>
        fun p => if p = tmp then some ⟨(serializeState (writeState data)).data.take i⟩
          else fs p) := by
    rw [writeTrace, List.dropLast_concat]
  have hmem : ∀ g ∈ (writeTrace fs dest tmp (serializeState (writeState data))).dropLast,
      g dest = fs dest := by
    intro g hg
    rw [hdl, List.mem_map] at hg
    obtain ⟨i, _, hgi⟩ := hg
    subst hgi
    simp only []
    rw [if_neg (fun hc => hne hc.symm)]
  refine ⟨hmem, ?_, ?_, by decide⟩
  · intro g hg
    simp only []
    rw [if_neg (fun hc => hne hc.symm)]
    exact hmem g hg
  · refine ⟨fun p => if p = tmp then none
      else if p = dest then some (serializeState (writeState data)) else fs p,
      ?_, ?_, ?_, ?_⟩
    · rw [writeTrace]
      exact List.getLast?_concat _
    · have h1 : dest ≠ tmp := fun hc => hne hc.symm
      simp [h1]
    · have h1 : dest ≠ tmp := fun hc => hne hc.symm
      simp [h1]
    · simp

/-- Witness for C4: a concrete publish of the empty document over an empty
filesystem. -/
theorem spec_C4_atomic_publish_witness :
    ∃ g, (writeTrace (fun _ => none) "current_study.json" "tmp01.tmp"
        (serializeState (writeState emptyDict))).getLast? = some g ∧
      g "current_study.json" = some (serializeState (writeState emptyDict)) ∧
      g "current_study.json" ≠ none ∧ g "tmp01.tmp" = none :=
  (spec_C4_atomic_publish (fun _ => none) "current_study.json" "tmp01.tmp"
    emptyDict (by decide)).2.2.1

/-! ## Metadata extraction (`_extract_fields`, `_resolve_modality`)

A pydicom dataset is external input; only the six attributes the source
reads matter, each present or absent (`getattr` default).  Python's
`str.strip()` is modelled by `trimStr` below (ASCII whitespace, as per the
file-header remark). -/

/-- The six DICOM attributes read by `_extract_fields`; `none` models an
absent attribute (so that `getattr(ds, ..., default)` takes the default). -/
structure Dataset where
  patientName : Option String
  accessionNumber : Option String
  patientSex : Option String
  patientAge : Option String
  modality : Option String
  studyDescription : Option String
deriving DecidableEq, Repr

/-- Python's `str.strip()`: remove whitespace from both ends. -/
def trimStr (s : String) : String :=
  ⟨((s.data.dropWhile Char.isWhitespace).reverse.dropWhile Char.isWhitespace).reverse⟩

/-- A word character for the regex `\b` boundary (`\w`, ASCII). -/
def wordChar (c : Char) : Bool :=
  c.isAlphanum || c = '_'

/-- Model of `re.search(r"\bW\b", l)`: the word `w` occurs in `l` with non-word (or
edge) characters on both sides. -/
def hasWord (w : String) (l : List Char) : Bool :=
  (List.range (l.length + 1)).any (fun j =>
    decide ((l.drop j).take w.data.length = w.data) &&
    (if j = 0 then true
     else match l[j - 1]? with
       | none => true
       | some c => !wordChar c) &&
    (match l[j + w.data.length]? with
     | none => true
     | some c => !wordChar c))

/-- One position of `_ACC_MOD_RE.search`: `-M` for a clinical code `M` at
position `j`, followed by `_`, `-` or the end of the string. -/
def accModAt (l : List Char) (j : Nat) : Option String :=
  clinicalModalities.find? (fun m =>
    decide ((l.drop j).take 3 = '-' :: m.data) &&
    (match l[j + 3]? with
     | none => true
     | some c => decide (c = '_' ∨ c = '-')))

/-- Model of `_ACC_MOD_RE.search(accession)`: the leftmost such occurrence. -/
def firstAccMod (l : List Char) : Option String :=
  (List.range l.length).findSome? (accModAt l)

/-- The function `_resolve_modality`: DICOM tag if clinical, else modality embedded in
the accession, else study-description keywords, else the original tag. -/
def resolveModality (modTag accession studyDesc : String) : String :=
  if modTag ∈ clinicalModalities then modTag
  else
    match firstAccMod accession.data with
    | some m => m
    | none =>
      if studyDesc ≠ "" ∧ studyDesc ≠ "N/A" then
        let desc := (toUpperStr studyDesc).data
        if containsSub "PET".data desc || containsSub "FDG".data desc then "PT"
        else if hasWord "CT" desc then "CT"
        else if containsSub "MRI".data desc || hasWord "MR" desc then "MR"
        else if containsSub "ULTRASOUND".data desc || hasWord "US" desc then "US"
        else if containsSub "X-RAY".data desc || containsSub "XRAY".data desc ||
          containsSub "RADIOGRAPH".data desc then "DX"
        else if containsSub "MAMMO".data desc then "MG"
        else if containsSub "NUCLEAR".data desc || containsSub "SPECT".data desc then "NM"
        else if containsSub "FLUORO".data desc || containsSub "ANGIO".data desc then "XA"
        else modTag
      else modTag

/-- The function `_extract_fields`: pull the demographics dict from a dataset. -/
def extractFields (ds : Dataset) : Study :=
  { name := trimStr (ds.patientName.getD "Unknown")
    acc := trimStr (ds.accessionNumber.getD "N/A")
    sex := trimStr (ds.patientSex.getD "?")
    age := trimStr (ds.patientAge.getD "?")
    mod := resolveModality (trimStr (ds.modality.getD "--"))
      (trimStr (ds.accessionNumber.getD "N/A"))
      (trimStr (ds.studyDescription.getD "N/A"))
    studyDesc := trimStr (ds.studyDescription.getD "N/A")
    source := "" }

/-! ### Claim C9 — Sex and Age extraction (amended) -/

/-- C9 (amended): `_extract_fields` returns Age as the stored age string
(whitespace-stripped, defaulting to `"?"` when absent) with no unit
conversion, and likewise returns Sex as the stored sex string — it performs
*no* normalisation into `{M, F, O, U}`; a stored value outside that set is
passed through verbatim (see the counterexample). -/
theorem spec_C9_sex_age_passthrough :
    (∀ ds : Dataset,
      (extractFields ds).sex = trimStr (ds.patientSex.getD "?") ∧
      (extractFields ds).age = trimStr (ds.patientAge.getD "?")) ∧
    (∃ ds : Dataset, (extractFields ds).sex ∉ (["M", "F", "O", "U"] : List String)) :=
  ⟨fun _ => ⟨rfl, rfl⟩,
    ⟨⟨some "DOE^JOHN", some "RAD-1-CT", some "X", some "045Y", some "CT",
      some "CT CHEST"⟩, by decide⟩⟩

/-- Counterexample to C9 as stated: a dataset whose stored sex is `"X"` is
extracted with Sex `"X"`, not normalised to `"U"`; an absent sex attribute
yields the `"?"` placeholder, also outside `{M, F, O, U}`. -/
theorem spec_C9_counterexample :
    (extractFields ⟨some "DOE^JOHN", some "RAD-1-CT", some "X", some "045Y",
      some "CT", some "CT CHEST"⟩).sex = "X" ∧
    ("X" : String) ∉ (["M", "F", "O", "U"] : List String) ∧
    (extractFields ⟨some "DOE^JOHN", some "RAD-1-CT", none, some "045Y",
      some "CT", some "CT CHEST"⟩).sex = "?" := by
  decide

end VagusLab
